import Mathlib

/-!
Verification of the Scheduled Dispatch Engine of the LR_Tennis_bot repository.

The definitions below are a shallow embedding of `src/scheduler.py`
(`BookingScheduler`), of the scheduled-booking paths of `src/telegram_bot.py`
(`TennisBookingBot`), and of the job-store contract those files consume.
Stateful code is modelled by explicit state passing: a Dispatcher run
(`BookingScheduler._execute`) is a pure function from its inputs (the
collision guard's active-key set, whether credentials exist, the Executor's
behaviour, the job record) to the list of observable effects it performs
(status writes, attempt-counter increments, Executor invocations, owner
notifications, sleeps) together with the guard set it leaves behind.
-/

namespace LRTennis

/-- The status values a scheduled-booking record can carry.  The source
writes the literals 'pending', 'success', 'failed' (scheduler.py) and the
cancel path sets 'cancelled'; 'executing' is listed because the
specification names it, so that claims about it are statable. -/
inductive Status where
  | pending
  | executing
  | success
  | failed
  | cancelled
  deriving DecidableEq, Repr

/-- Collision key: the tuple `(user_id, date, time, court)` built in
`BookingScheduler._execute` (scheduler.py line 182). -/
abbrev Key := Nat × String × String × String

/-- A scheduled-booking job record as handed to `_execute` (the dict with
keys id, user_id, booking_date, booking_time, court, fire_at). -/
structure Job where
  id : Nat
  user_id : Nat
  booking_date : String
  booking_time : String
  court : String
  fire_at : String
  deriving DecidableEq, Repr

/-- The collision key of a job, as built at scheduler.py line 182. -/
def collisionKey (j : Job) : Key :=
  (j.user_id, j.booking_date, j.booking_time, j.court)

/-- One outcome of a single `engine.book_court` call inside the retry loop:
the call can return a result dict with success true or false (optionally
carrying a screenshot path), or raise an exception with a message. -/
inductive ExecOutcome where
  | ok (msg : String) (shot : Option String)
  | fail (msg : String) (shot : Option String)
  | exn (msg : String)
  deriving DecidableEq, Repr

/-- The Executor's behaviour: what `engine.book_court` does on the n-th
attempt (attempts are numbered from 1 as in the source loop). -/
abbrev Executor := Nat → ExecOutcome

/-- The `result` dict as the retry loop stores it: `success`, `message`,
and the optional `screenshot` used by the final notification. -/
structure BookResult where
  success : Bool
  message : String
  screenshot : Option String
  deriving DecidableEq, Repr

/-- Observable effects of a Dispatcher run, in program order:
database status writes (`db.update_scheduled_booking_status`), attempt
increments (`db.increment_scheduled_booking_attempts`), Executor
invocations, owner notifications (`self._notify`), and retry sleeps. -/
inductive Event where
  | dbStatusWrite (jobId : Nat) (st : Status) (msg : String)
  | dbIncrementAttempts (jobId : Nat)
  | invoke (attempt : Nat)
  | notify (userId : Nat) (msg : String) (shot : Option String)
  | sleep (seconds : Nat)
  deriving DecidableEq, Repr

/-- `BookingScheduler.MAX_RETRIES_PER_JOB` (scheduler.py line 33). -/
def MAX_RETRIES_PER_JOB : Nat := 3

/-- Message of the collision branch (scheduler.py lines 189-192). -/
def collisionMsg : String :=
  "⚠️ Collision: Another identical booking was already in progress."

/-- Message of the missing-credentials branch (scheduler.py line 206). -/
def noCredsMsg : String := "❌ No credentials found. Use /login to add them."

/-- The "firing now" notification sent on entry (scheduler.py lines 197-201). -/
def firingMsg (j : Job) : String :=
  "⏰ *Scheduled booking firing now!*\n📅 " ++ j.booking_date ++ "  ⏰ "
    ++ j.booking_time ++ "  🎾 " ++ j.court ++ "\nBooking in progress…"

/-- The retry notification (scheduler.py line 218). -/
def retryMsg (attempt : Nat) : String :=
  "⚠️ Retry " ++ toString attempt ++ "/" ++ toString MAX_RETRIES_PER_JOB ++ "…"

/-- The success outcome message (scheduler.py lines 237-241). -/
def successMsg (j : Job) : String :=
  "🎉 *Scheduled booking confirmed!*\n📅 " ++ j.booking_date ++ "  ⏰ "
    ++ j.booking_time ++ "  🎾 " ++ j.court
    ++ "\n📧 Check your email for confirmation."

/-- The failure outcome message (scheduler.py lines 244-248). -/
def failedMsg (j : Job) (resultMsg : String) : String :=
  "❌ *Scheduled booking failed* after " ++ toString MAX_RETRIES_PER_JOB
    ++ " attempts.\n📅 " ++ j.booking_date ++ "  ⏰ " ++ j.booking_time
    ++ "  🎾 " ++ j.court ++ "\n" ++ resultMsg

/-- The retry loop of `_execute` (scheduler.py lines 211-232), unrolled by
remaining iterations.  `remaining` is how many iterations of
`for attempt in range(1, MAX_RETRIES_PER_JOB + 1)` are still to run,
`attempt` the number of the current iteration, `prev` the `result`
variable carried across iterations.  On `ok` the loop breaks; a returned
failure and a raised error both set `result` and fall through to the
sleep-and-retry logic (`attempt < MAX_RETRIES_PER_JOB`, equivalently
`remaining > 1`). -/
def retryLoop (ex : Executor) (uid jid : Nat) :
    Nat → Nat → Option BookResult → List Event × Option BookResult
  | 0, _, prev => ([], prev)
  | remaining + 1, attempt, _ =>
    let pre : List Event :=
      Event.dbIncrementAttempts jid ::
        (if attempt > 1 then [Event.notify uid (retryMsg attempt) none] else [])
    match ex attempt with
    | ExecOutcome.ok m shot =>
        (pre ++ [Event.invoke attempt], some ⟨true, m, shot⟩)
    | ExecOutcome.fail m shot =>
        let r : Option BookResult := some ⟨false, m, shot⟩
        let sleeps : List Event :=
          if remaining > 0 then [Event.sleep 5] else []
        let rest := retryLoop ex uid jid remaining (attempt + 1) r
        (pre ++ [Event.invoke attempt] ++ sleeps ++ rest.1, rest.2)
    | ExecOutcome.exn m =>
        let r : Option BookResult := some ⟨false, m, none⟩
        let sleeps : List Event :=
          if remaining > 0 then [Event.sleep 5] else []
        let rest := retryLoop ex uid jid remaining (attempt + 1) r
        (pre ++ [Event.invoke attempt] ++ sleeps ++ rest.1, rest.2)

/-- Result of a Dispatcher run: the events it performed, in order, and the
collision guard's active-key set after the run (the `finally` block). -/
structure RunResult where
  events : List Event
  active : List Key
  deriving DecidableEq, Repr

/-- The terminal status and message `_execute` writes after the retry loop
(scheduler.py lines 234-250): 'success' with the confirmation message when
the loop's `result` reports success, otherwise 'failed' with the failure
message carrying the result's message (or 'Unknown error' when `result`
is still `None`). -/
def finalWrite (ex : Executor) (j : Job) : Status × String :=
  match (retryLoop ex j.user_id j.id MAX_RETRIES_PER_JOB 1 none).2 with
  | some r =>
      if r.success then (Status.success, successMsg j)
      else (Status.failed, failedMsg j r.message)
  | none => (Status.failed, failedMsg j "Unknown error")

/-- The screenshot attached to the final notification (scheduler.py line
251): `result.get('screenshot') if result else None`. -/
def finalShot (ex : Executor) (j : Job) : Option String :=
  match (retryLoop ex j.user_id j.id MAX_RETRIES_PER_JOB 1 none).2 with
  | some r => r.screenshot
  | none => none

/-- Shallow embedding of `BookingScheduler._execute` (scheduler.py lines
171-257).  `active` is the collision guard's set of in-flight keys at
entry, `creds` whether `db.get_user_credentials` returns credentials,
`ex` the Executor's behaviour per attempt.  Faithful control flow:

* collision branch: if the key is already active, write status 'failed'
  with the collision message and return — no notification, no add to the
  active set, no release (the key was never acquired by this run);
* otherwise add the key, notify the owner that the booking is firing,
  fetch credentials (on failure: write 'failed', notify, return through
  the `finally` that discards the key);
* run the retry loop; afterwards write 'success' or 'failed' and notify
  with the result's screenshot; the `finally` discards the key on every
  one of these paths. -/
def execute (active : List Key) (creds : Bool) (ex : Executor) (j : Job) :
    RunResult :=
  let key := collisionKey j
  if active.contains key then
    ⟨[Event.dbStatusWrite j.id Status.failed collisionMsg], active⟩
  else
    let acquired := key :: active
    let firing := Event.notify j.user_id (firingMsg j) none
    if creds = false then
      ⟨[firing, Event.dbStatusWrite j.id Status.failed noCredsMsg,
        Event.notify j.user_id noCredsMsg none], acquired.erase key⟩
    else
      let loop := retryLoop ex j.user_id j.id MAX_RETRIES_PER_JOB 1 none
      let fw := finalWrite ex j
      ⟨firing :: loop.1 ++
        [Event.dbStatusWrite j.id fw.1 fw.2,
         Event.notify j.user_id fw.2 (finalShot ex j)],
       acquired.erase key⟩

/-- Is an event an Executor invocation? -/
def isInvoke : Event → Bool
  | Event.invoke _ => true
  | _ => false

/-- Is an event an attempt-counter increment? -/
def isIncrement : Event → Bool
  | Event.dbIncrementAttempts _ => true
  | _ => false

/-- Is an event an owner notification? -/
def isNotify : Event → Bool
  | Event.notify _ _ _ => true
  | _ => false

/-- Project the status writes out of an event trace. -/
def statusWrites : List Event → List (Nat × Status × String)
  | [] => []
  | Event.dbStatusWrite i s m :: rest => (i, s, m) :: statusWrites rest
  | _ :: rest => statusWrites rest

/-- Number of Executor invocations in a trace. -/
def invokeCount : List Event → Nat
  | [] => 0
  | Event.invoke _ :: rest => invokeCount rest + 1
  | _ :: rest => invokeCount rest

/-- Number of attempt-counter increments in a trace. -/
def incrementCount : List Event → Nat
  | [] => 0
  | Event.dbIncrementAttempts _ :: rest => incrementCount rest + 1
  | _ :: rest => incrementCount rest

/-- Did a `book_court` call report success (a returned dict with
`success` truthy)? -/
def isOk : ExecOutcome → Bool
  | ExecOutcome.ok _ _ => true
  | _ => false

/-- Did a `book_court` call raise? -/
def isExn : ExecOutcome → Bool
  | ExecOutcome.exn _ => true
  | _ => false

/-! ## Calendar dates and fire-time computation

`BookingScheduler.compute_fire_at` (scheduler.py lines 54-66) parses the
booking date with `datetime.strptime(booking_date, "%Y-%m-%d")`, subtracts
`timedelta(days=7)` (a pure calendar-date shift, since the parsed datetime
sits at midnight and is naive), localizes the resulting date in the
Asia/Dubai zone and sets the time to 00:01:00, then returns
`isoformat()` — a string of the shape `YYYY-MM-DDT00:01:00+04:00`.
Asia/Dubai is a fixed UTC+4 zone for every year from 1921 on, which is the
range the theorems below quantify over. -/

/-- Gregorian leap-year test. -/
def isLeap (y : Nat) : Bool :=
  decide ((y % 4 = 0 ∧ y % 100 ≠ 0) ∨ y % 400 = 0)

/-- Length of month `m` of year `y` (months numbered 1-12). -/
def monthLen (y m : Nat) : Nat :=
  if m = 2 then (if isLeap y then 29 else 28)
  else if m = 4 ∨ m = 6 ∨ m = 9 ∨ m = 11 then 30
  else 31

/-- A calendar date, year-month-day. -/
structure Ymd where
  year : Nat
  month : Nat
  day : Nat
  deriving DecidableEq, Repr

/-- A valid Gregorian date with year ≥ 1 (Python's `datetime` range starts
at year 1). -/
def validYmd (x : Ymd) : Bool :=
  decide (1 ≤ x.year ∧ 1 ≤ x.month ∧ x.month ≤ 12 ∧ 1 ≤ x.day
    ∧ x.day ≤ monthLen x.year x.month)

/-- Cumulative days before month `m` in a non-leap year. -/
def cumDays (m : Nat) : Nat :=
  match m with
  | 1 => 0 | 2 => 31 | 3 => 59 | 4 => 90 | 5 => 120 | 6 => 151 | 7 => 181
  | 8 => 212 | 9 => 243 | 10 => 273 | 11 => 304 | 12 => 334 | _ => 0

/-- Days of year `y` strictly before month `m`. -/
def daysBeforeMonth (y m : Nat) : Nat :=
  cumDays m + (if 3 ≤ m ∧ isLeap y then 1 else 0)

/-- Number of leap years in `[1, n]`. -/
def leapCount (n : Nat) : Nat := n / 4 - n / 100 + n / 400

/-- Linear day number of a date (0001-01-01 ↦ 0): the proleptic-Gregorian
ordinal used to compare dates as instants. -/
def toDayNumber (x : Ymd) : Nat :=
  365 * (x.year - 1) + leapCount (x.year - 1)
    + daysBeforeMonth x.year x.month + (x.day - 1)

/-- The previous calendar day. -/
def predDay (x : Ymd) : Ymd :=
  if 2 ≤ x.day then ⟨x.year, x.month, x.day - 1⟩
  else if 2 ≤ x.month then ⟨x.year, x.month - 1, monthLen x.year (x.month - 1)⟩
  else ⟨x.year - 1, 12, 31⟩

/-- Calendar-date subtraction: `n` days earlier.  This is the semantics of
`target - timedelta(days=n)` in scheduler.py line 61: the parsed target sits
at midnight naive, so the subtraction moves the calendar date back by
exactly `n` days. -/
def subDays (x : Ymd) : Nat → Ymd
  | 0 => x
  | n + 1 => predDay (subDays x n)

/-- Value of a decimal digit character. -/
def digitVal (c : Char) : Option Nat :=
  if c.isDigit then some (c.toNat - 48) else none

/-- Build a `Ymd` from parsed digit values, validating it as Python's
`datetime.strptime` does (month 1-12, day within the month, year ≥ 1). -/
def mkYmd (a b c e f g h i : Nat) : Option Ymd :=
  if validYmd ⟨a * 1000 + b * 100 + c * 10 + e, f * 10 + g, h * 10 + i⟩ then
    some ⟨a * 1000 + b * 100 + c * 10 + e, f * 10 + g, h * 10 + i⟩
  else none

/-- `datetime.strptime(s, "%Y-%m-%d")` on the zero-padded `YYYY-MM-DD`
strings this repository generates (telegram_bot.py builds every booking
date with `strftime("%Y-%m-%d")`): exactly ten characters, digits in the
year/month/day positions, dashes between, the result range-checked.
Returns `none` where Python raises `ValueError`. -/
def strptime_Ymd (s : String) : Option Ymd :=
  match s.toList with
  | [y1, y2, y3, y4, s1, m1, m2, s2, d1, d2] =>
    match digitVal y1, digitVal y2, digitVal y3, digitVal y4,
          digitVal m1, digitVal m2, digitVal d1, digitVal d2 with
    | some a, some b, some c, some e, some f, some g, some h, some i =>
        if s1 = '-' ∧ s2 = '-' then mkYmd a b c e f g h i else none
    | _, _, _, _, _, _, _, _ => none
  | _ => none

/-- Zero-padded two-digit decimal rendering. -/
def pad2 (n : Nat) : String :=
  if n < 10 then "0" ++ toString n else toString n

/-- Zero-padded four-digit decimal rendering. -/
def pad4 (n : Nat) : String :=
  if n < 10 then "000" ++ toString n
  else if n < 100 then "00" ++ toString n
  else if n < 1000 then "0" ++ toString n
  else toString n

/-- `fire_dubai.isoformat()` (scheduler.py line 66) for the computed fire
datetime: the date at 00:01:00 with the Asia/Dubai +04:00 offset. -/
def renderIsoDubai (x : Ymd) : String :=
  pad4 x.year ++ "-" ++ pad2 x.month ++ "-" ++ pad2 x.day ++ "T00:01:00+04:00"

/-- The calendar date of the fire instant computed by
`BookingScheduler.compute_fire_at`: the parsed booking date minus 7
calendar days (scheduler.py lines 60-63). -/
def compute_fire_date (s : String) : Option Ymd :=
  (strptime_Ymd s).map (fun d => subDays d 7)

/-- Shallow embedding of `BookingScheduler.compute_fire_at` (scheduler.py
lines 54-66): parse, subtract 7 calendar days, localize at 00:01:00 in
Asia/Dubai (+04:00), render `isoformat()`.  `none` where Python raises. -/
def compute_fire_at (s : String) : Option String :=
  (compute_fire_date s).map renderIsoDubai

/-- UTC instant (in seconds, day 0 = 0001-01-01T00:00:00Z) of a wall-clock
date-time carrying a UTC offset in minutes. -/
def utcSeconds (d : Ymd) (h mi s : Nat) (offMin : Int) : Int :=
  (toDayNumber d : Int) * 86400 + h * 3600 + mi * 60 + s - offMin * 60

/-- Follows the words of spec §4.1 (`FireTimeCalculator.compute`): subtract
`lead_days` from `target_date` as calendar dates, then localize the
resulting date at the trigger time-of-day (`h:mi`) in the timezone whose
UTC offset is `offMin` minutes; expressed as the resulting UTC instant in
seconds. -/
def fireTimeSpecSeconds (target : Ymd) (lead h mi : Nat) (offMin : Int) : Int :=
  ((toDayNumber target : Int) - lead) * 86400 + h * 3600 + mi * 60 - offMin * 60

/-- An aware wall-clock datetime (offset in minutes east of UTC). -/
structure DT where
  date : Ymd
  hour : Nat
  minute : Nat
  second : Nat
  offsetMinutes : Int
  deriving DecidableEq, Repr

/-- UTC instant in seconds of an aware datetime. -/
def dtUtcSeconds (t : DT) : Int :=
  utcSeconds t.date t.hour t.minute t.second t.offsetMinutes

/-- `datetime.fromisoformat` (scheduler.py lines 82, 128) on the strings
this repository stores: `YYYY-MM-DD*HH:MM:SS` with any single separator
character, optionally followed by a `±HH:MM` offset.  Returns the parsed
fields and the offset (`none` when the string is naive). -/
def fromisoformat (s : String) :
    Option (Ymd × Nat × Nat × Nat × Option Int) :=
  let core := fun (y1 y2 y3 y4 s1 m1 m2 s2 d1 d2 : Char)
      (h1 h2 c1 i1 i2 c2 e1 e2 : Char) (off : Option Int) =>
    match digitVal y1, digitVal y2, digitVal y3, digitVal y4,
          digitVal m1, digitVal m2, digitVal d1, digitVal d2,
          digitVal h1, digitVal h2, digitVal i1, digitVal i2,
          digitVal e1, digitVal e2 with
    | some a, some b, some c, some e, some f, some g, some h, some i,
      some hh1, some hh2, some mi1, some mi2, some se1, some se2 =>
        if s1 = '-' ∧ s2 = '-' ∧ c1 = ':' ∧ c2 = ':' then
          match mkYmd a b c e f g h i with
          | some d =>
              let hh := hh1 * 10 + hh2
              let mi := mi1 * 10 + mi2
              let se := se1 * 10 + se2
              if hh < 24 ∧ mi < 60 ∧ se < 60 then some (d, hh, mi, se, off)
              else none
          | none => none
        else none
    | _, _, _, _, _, _, _, _, _, _, _, _, _, _ => none
  match s.toList with
  | [y1, y2, y3, y4, s1, m1, m2, s2, d1, d2, _sep,
     h1, h2, c1, i1, i2, c2, e1, e2] =>
      core y1 y2 y3 y4 s1 m1 m2 s2 d1 d2 h1 h2 c1 i1 i2 c2 e1 e2 none
  | [y1, y2, y3, y4, s1, m1, m2, s2, d1, d2, _sep,
     h1, h2, c1, i1, i2, c2, e1, e2, sgn, o1, o2, oc, o3, o4] =>
      match digitVal o1, digitVal o2, digitVal o3, digitVal o4 with
      | some a1, some a2, some b1, some b2 =>
          if oc = ':' ∧ (sgn = '+' ∨ sgn = '-') then
            let mins : Int := ((a1 * 10 + a2) * 60 + (b1 * 10 + b2) : Nat)
            let off : Int := if sgn = '+' then mins else -mins
            core y1 y2 y3 y4 s1 m1 m2 s2 d1 d2 h1 h2 c1 i1 i2 c2 e1 e2
              (some off)
          else none
      | _, _, _, _ => none
  | _ => none

/-- The aware fire datetime `start`/`add_job` hand to the timer trigger
(scheduler.py lines 82-84 and 128-130): `fromisoformat`, then, when the
parse is naive, localize in Asia/Dubai (+04:00). -/
def parse_fire_dt (s : String) : Option DT :=
  (fromisoformat s).map (fun p =>
    ⟨p.1, p.2.1, p.2.2.1, p.2.2.2.1, p.2.2.2.2.getD 240⟩)

/-- `datetime.strptime(s, "%Y-%m-%d %H:%M:%S")` — the fixed-format parse
that `TennisBookingBot._execute_booking` (telegram_bot.py line 543),
`_show_booking_confirmation` (line 458) and `scheduled_command`
(line 1011) apply to a stored `fire_at` string: exactly nineteen
characters with a space separator and nothing after the seconds.
Returns `none` where Python raises `ValueError`. -/
def strptime_Ymd_HMS (s : String) : Option (Ymd × Nat × Nat × Nat) :=
  match s.toList with
  | [y1, y2, y3, y4, s1, m1, m2, s2, d1, d2, sp,
     h1, h2, c1, i1, i2, c2, e1, e2] =>
    match digitVal y1, digitVal y2, digitVal y3, digitVal y4,
          digitVal m1, digitVal m2, digitVal d1, digitVal d2,
          digitVal h1, digitVal h2, digitVal i1, digitVal i2,
          digitVal e1, digitVal e2 with
    | some a, some b, some c, some e, some f, some g, some h, some i,
      some hh1, some hh2, some mi1, some mi2, some se1, some se2 =>
        if s1 = '-' ∧ s2 = '-' ∧ sp = ' ' ∧ c1 = ':' ∧ c2 = ':' then
          match mkYmd a b c e f g h i with
          | some d =>
              let hh := hh1 * 10 + hh2
              let mi := mi1 * 10 + mi2
              let se := se1 * 10 + se2
              if hh < 24 ∧ mi < 60 ∧ se < 60 then some (d, hh, mi, se)
              else none
          | none => none
        else none
    | _, _, _, _, _, _, _, _, _, _, _, _, _, _ => none
  | _ => none

/-! ## Scheduler startup (`BookingScheduler.start`) -/

/-- A scheduling action the timer engine can be asked to perform.
`armTimer` is `self._scheduler.add_job(..., trigger=DateTrigger(run_date),
id=f"sched_{job['id']}", replace_existing=True)`; `dispatchNow` is the
immediate dispatch the specification describes for past-due jobs — it is
part of the vocabulary so that the claim is statable, and `start` is shown
never to produce it. -/
inductive SchedAction where
  | armTimer (jobId : Nat) (runDate : DT)
  | dispatchNow (jobId : Nat)
  deriving DecidableEq, Repr

/-- Shallow embedding of the per-job loop of `BookingScheduler.start`
(scheduler.py lines 78-100) and equally of `add_job` (lines 121-141): for
every loaded pending job, parse its `fire_at` (a parse failure is logged
and the job skipped) and arm one one-shot timer at that instant — with no
comparison against the current time and no immediate-dispatch branch. -/
def startActions (pending : List Job) : List SchedAction :=
  pending.filterMap (fun j =>
    (parse_fire_dt j.fire_at).map (fun dt => SchedAction.armTimer j.id dt))

/-- Follows the words of the claim and spec §4.5: for each pending job
compute `delay = fire_at - now`; if `delay <= 0`, dispatch immediately;
otherwise arm a one-shot timer.  Stated for comparison with
`startActions`, the behaviour of the source. -/
def startSpecActions (pending : List Job) (now : Int) : List SchedAction :=
  pending.filterMap (fun j =>
    (parse_fire_dt j.fire_at).map (fun dt =>
      if dtUtcSeconds dt ≤ now then SchedAction.dispatchNow j.id
      else SchedAction.armTimer j.id dt))

/-- Is this action a timer armed for job `id`? -/
def isArmFor (id : Nat) : SchedAction → Bool
  | SchedAction.armTimer i _ => i == id
  | _ => false

/-- Is this action an immediate dispatch? -/
def isDispatchNow : SchedAction → Bool
  | SchedAction.dispatchNow _ => true
  | _ => false

/-! ## The job store and the system's status transitions (claim C6)

The scheduled-bookings table is written by `_execute` (through
`db.update_scheduled_booking_status`), created by
`TennisBookingBot._execute_booking` (through `db.add_scheduled_booking`)
and cancelled by `TennisBookingBot.button_callback`'s `sched_cancel_`
branch (through `db.cancel_scheduled_booking` followed by
`scheduler.remove_job`).  The bodies of those three Database methods are
not in src/ (only their call sites are), so they are modelled from the
spec below; everything `_execute` does comes from its embedding above. -/

/-- The stored table: job id ↦ the job record and its current status. -/
abbrev Store := Nat → Option (Job × Status)

/-- System state: the stored table plus the set of job ids with an armed
one-shot timer. -/
structure SysState where
  store : Store
  armed : List Nat

/-- The stored status of a job id. -/
def statusOf (s : SysState) (id : Nat) : Option Status :=
  (s.store id).map (fun p => p.2)

/-- The operations the system performs on the scheduled-bookings table,
each applied atomically in this sequential model: creating a scheduled
booking (insert as 'pending' + arm a timer, telegram_bot.py lines
545-562), the user cancelling one (telegram_bot.py lines 278-285), and a
timer firing a Dispatcher run for an armed job. -/
inductive Op where
  | createJob (j : Job)
  | cancelJob (jobId uid : Nat)
  | fire (jobId : Nat) (creds : Bool) (ex : Executor)

/-- Modelled from the spec: `db.update_scheduled_booking_status` (called
by `_execute`, body not in src/) is spec §4.2's `update_outcome` — a plain
status write, applied here for each write in a run's trace. -/
def applyWrites (st : Store) (ws : List (Nat × Status × String)) : Store :=
  ws.foldl
    (fun acc w => fun i =>
      if i = w.1 then (acc i).map (fun p => (p.1, w.2.1)) else acc i)
    st

/-- One atomic system operation.  `createJob` models
`db.add_scheduled_booking` (body not in src/; spec §4.2 `insert` with
status pending) followed by `scheduler.add_job`.  `cancelJob` is modelled
from the spec: `db.cancel_scheduled_booking` (body not in src/) is spec
§6's `cancel_job(job_id, owner)` — succeeds only while the job is still
pending and owned by the caller, marking it cancelled — followed by
`scheduler.remove_job`, which disarms the timer.  `fire` is a timer
firing: it only happens for an armed id, consumes the timer (DateTrigger
timers are one-shot), and performs the status writes of the `_execute`
embedding; the guard set is empty at entry because in this sequential
model each Dispatcher run executes alone. -/
def stepOp (s : SysState) : Op → SysState
  | Op.createJob j =>
    match s.store j.id with
    | some _ => s
    | none =>
        ⟨fun i => if i = j.id then some (j, Status.pending) else s.store i,
         j.id :: s.armed⟩
  | Op.cancelJob jobId uid =>
    match s.store jobId with
    | some (j, Status.pending) =>
        if j.user_id = uid then
          ⟨fun i => if i = jobId then some (j, Status.cancelled) else s.store i,
           s.armed.erase jobId⟩
        else s
    | _ => s
  | Op.fire jobId creds ex =>
    if s.armed.contains jobId then
      match s.store jobId with
      | some (j, _) =>
          ⟨applyWrites s.store (statusWrites (execute [] creds ex j).events),
           s.armed.erase jobId⟩
      | none => ⟨s.store, s.armed.erase jobId⟩
    else s

/-- The empty system: no stored jobs, no armed timers. -/
def sysInit : SysState := ⟨fun _ => none, []⟩

/-- Run a sequence of system operations from the empty system. -/
def runOps (ops : List Op) : SysState := ops.foldl stepOp sysInit

/-- The status moves claim C6 allows (staying put is not a move):
pending → executing → exactly one of success/failed, or pending →
cancelled. -/
def okTransitionClaim (a b : Status) : Bool :=
  a == b ||
    (match a, b with
     | Status.pending, Status.executing => true
     | Status.executing, Status.success => true
     | Status.executing, Status.failed => true
     | Status.pending, Status.cancelled => true
     | _, _ => false)

/-- The status moves the code actually makes: straight from pending to a
terminal status, with no intermediate 'executing'. -/
def okTransitionAmended (a b : Status) : Bool :=
  a == b ||
    (match a, b with
     | Status.pending, Status.success => true
     | Status.pending, Status.failed => true
     | Status.pending, Status.cancelled => true
     | _, _ => false)

/-- Lift a per-status transition check to a step of the stored table:
absent stays absent, a job appears only as 'pending' (creation), a stored
job is never deleted by these operations and moves per `ok`. -/
def okStepWith (ok : Status → Status → Bool) :
    Option Status → Option Status → Bool
  | none, none => true
  | none, some b => b == Status.pending
  | some _, none => false
  | some a, some b => ok a b

/-! ## Two concurrent Dispatcher runs sharing a collision key (claim C9)

`_execute` touches the shared guard state (`self._active` under
`self._lock`) at exactly two places: the atomic check-and-add at entry
(scheduler.py lines 183-194) and the atomic discard in the `finally`
(lines 254-257).  Between them the run awaits (notifications, the
Executor, sleeps), which is where another run may interleave.  The model
below gives each run two atomic steps — the acquire attempt and the
finish (terminal write + release) — and lets an adversarial word choose
the interleaving.  The finish step releases the key whatever the
Executor's outcome, including a raise: this is the `finally` block. -/

/-- Where a Dispatcher run stands: not yet started, inside the critical
section, finished via the collision branch, or finished normally. -/
inductive RunPC where
  | idle
  | critical
  | doneCollision
  | doneNormal
  deriving DecidableEq, Repr

/-- State of two concurrent runs: the guard's active-key set and each
run's control point and status writes so far. -/
structure Duel where
  held : List Key
  pc1 : RunPC
  pc2 : RunPC
  writes1 : List (Status × String)
  writes2 : List (Status × String)
  deriving Repr

/-- Advance one run by one atomic step: from `idle`, the atomic
check-and-add (on collision: write 'failed' with the collision message
and stop; otherwise enter the critical section); from `critical`, the
rest of the run collapsed to its terminal write followed by the
`finally` release.  Terminal states do not move. -/
def stepRun (ex : Executor) (j : Job) (held : List Key) (pc : RunPC)
    (writes : List (Status × String)) :
    List Key × RunPC × List (Status × String) :=
  match pc with
  | RunPC.idle =>
      if held.contains (collisionKey j) then
        (held, RunPC.doneCollision, writes ++ [(Status.failed, collisionMsg)])
      else (collisionKey j :: held, RunPC.critical, writes)
  | RunPC.critical =>
      (held.erase (collisionKey j), RunPC.doneNormal,
       writes ++ [finalWrite ex j])
  | pc => (held, pc, writes)

/-- One scheduler tick: `true` advances run 1, `false` run 2. -/
def stepDuel (j1 j2 : Job) (ex1 ex2 : Executor) (s : Duel) (turn : Bool) :
    Duel :=
  if turn then
    let r := stepRun ex1 j1 s.held s.pc1 s.writes1
    ⟨r.1, r.2.1, s.pc2, r.2.2, s.writes2⟩
  else
    let r := stepRun ex2 j2 s.held s.pc2 s.writes2
    ⟨r.1, s.pc1, r.2.1, s.writes1, r.2.2⟩

/-- Both runs pending, guard empty. -/
def duelInit : Duel := ⟨[], RunPC.idle, RunPC.idle, [], []⟩

/-- Run the two-run system under an interleaving word. -/
def runDuel (j1 j2 : Job) (ex1 ex2 : Executor) (w : List Bool) : Duel :=
  w.foldl (stepDuel j1 j2 ex1 ex2) duelInit

/-- A run control point is terminal when the run has finished. -/
def pcTerminal : RunPC → Bool
  | RunPC.doneCollision => true
  | RunPC.doneNormal => true
  | _ => false

/-! ## Claim-shaped trace predicates and concrete fixtures -/

/-- Replace every raised Executor error by a returned
`success=False` result with the same message (and no screenshot), which
is exactly what the `except` clause at scheduler.py lines 227-229
produces. -/
def normExn (ex : Executor) : Executor := fun n =>
  match ex n with
  | ExecOutcome.exn m => ExecOutcome.fail m none
  | o => o

/-- Is the event a stored-status write? -/
def isStatusWrite : Event → Bool
  | Event.dbStatusWrite _ _ _ => true
  | _ => false

/-- Is the event a stored-status write of a non-terminal status
('pending' or 'executing')? -/
def nonTerminalWrite : Event → Bool
  | Event.dbStatusWrite _ Status.pending _ => true
  | Event.dbStatusWrite _ Status.executing _ => true
  | _ => false

/-- Claim C1's required shape on a run trace: before the first Executor
invocation the trace carries a stored-status write to 'executing' (the
compare-and-swap's successful effect). -/
def executingWriteBeforeInvoke (evs : List Event) : Bool :=
  (evs.takeWhile (fun e => !isInvoke e)).any (fun e =>
    match e with
    | Event.dbStatusWrite _ Status.executing _ => true
    | _ => false)

/-- A job as created by the bot's scheduled-booking flow. -/
def jobA : Job :=
  ⟨1, 42, "2024-03-10", "06:00", "Amaranta B", "2024-03-03T00:01:00+04:00"⟩

/-- A second job with the same collision key as `jobA` but its own id. -/
def jobB : Job :=
  ⟨2, 42, "2024-03-10", "06:00", "Amaranta B", "2024-03-03T00:01:00+04:00"⟩

/-- A job for a different user, date, time and court. -/
def jobC : Job :=
  ⟨3, 7, "2024-04-05", "18:00", "La Rosa 4", "2024-03-29T00:01:00+04:00"⟩

/-- An Executor that succeeds on every attempt. -/
def exOk : Executor := fun _ => ExecOutcome.ok "Booked" none

/-- An Executor that fails once with a returned result, then succeeds. -/
def exFailThenOk : Executor := fun n =>
  if n = 1 then ExecOutcome.fail "Slot taken" none
  else ExecOutcome.ok "Booked" none

/-- An Executor whose every attempt returns `success=False`. -/
def exAlwaysFail : Executor := fun _ => ExecOutcome.fail "Slot taken" none

/-- An Executor whose every attempt raises — including the permanently
fatal condition the specification's `ExecutorFatalError` names. -/
def exAlwaysExn : Executor := fun _ =>
  ExecOutcome.exn "fatal: venue permanently unavailable"


/-! ## Helper lemmas on run traces and the retry loop -/

theorem statusWrites_append (a b : List Event) :
    statusWrites (a ++ b) = statusWrites a ++ statusWrites b := by
  induction a with
  | nil => rfl
  | cons e t ih => cases e <;> simp [statusWrites, ih]

theorem invokeCount_append (a b : List Event) :
    invokeCount (a ++ b) = invokeCount a + invokeCount b := by
  induction a with
  | nil => simp [invokeCount]
  | cons e t ih => cases e <;> simp [invokeCount, ih] <;> omega

theorem incrementCount_append (a b : List Event) :
    incrementCount (a ++ b) = incrementCount a + incrementCount b := by
  induction a with
  | nil => simp [incrementCount]
  | cons e t ih => cases e <;> simp [incrementCount, ih] <;> omega

theorem statusWrites_ite (c : Prop) [Decidable c] (a b : List Event) :
    statusWrites (if c then a else b)
      = if c then statusWrites a else statusWrites b := by
  split <;> rfl

theorem invokeCount_ite (c : Prop) [Decidable c] (a b : List Event) :
    invokeCount (if c then a else b)
      = if c then invokeCount a else invokeCount b := by
  split <;> rfl

theorem incrementCount_ite (c : Prop) [Decidable c] (a b : List Event) :
    incrementCount (if c then a else b)
      = if c then incrementCount a else incrementCount b := by
  split <;> rfl

theorem retryLoop_statusWrites (ex : Executor) (uid jid : Nat) :
    ∀ rem att prev, statusWrites (retryLoop ex uid jid rem att prev).1 = [] := by
  intro rem
  induction rem with
  | zero => intro att prev; rfl
  | succ k ih =>
    intro att prev
    cases hA : ex att <;>
      simp [retryLoop, hA, statusWrites_append, statusWrites, statusWrites_ite, ih]

theorem retryLoop_allFail (ex : Executor) (uid jid : Nat) :
    ∀ rem att prev,
      (∀ i, att ≤ i → i < att + rem → isOk (ex i) = false) →
      invokeCount (retryLoop ex uid jid rem att prev).1 = rem ∧
      incrementCount (retryLoop ex uid jid rem att prev).1 = rem ∧
      (rem = 0 → (retryLoop ex uid jid rem att prev).2 = prev) ∧
      (1 ≤ rem → ∃ r, (retryLoop ex uid jid rem att prev).2 = some r
        ∧ r.success = false) := by
  intro rem
  induction rem with
  | zero =>
    intro att prev _
    refine ⟨rfl, rfl, fun _ => rfl, fun h => absurd h (by omega)⟩
  | succ k ih =>
    intro att prev hfail
    have hA : isOk (ex att) = false := hfail att (le_refl att) (by omega)
    cases hx : ex att with
    | ok m shot => rw [hx] at hA; simp [isOk] at hA
    | fail m shot =>
      have hfail2 : ∀ i, att + 1 ≤ i → i < att + 1 + k → isOk (ex i) = false := by
        intro i h1 h2; exact hfail i (by omega) (by omega)
      obtain ⟨hInv, hInc, hZ, hS⟩ :=
        ih (att + 1) (some ⟨false, m, shot⟩) hfail2
      refine ⟨?_, ?_, ?_, ?_⟩
      · simp [retryLoop, hx, invokeCount_append, invokeCount_ite, hInv,
          invokeCount, isInvoke, List.filter]
      · simp [retryLoop, hx, incrementCount_append, incrementCount_ite, hInc,
          incrementCount, isIncrement, List.filter]
      · intro h; omega
      · intro _
        rcases Nat.eq_zero_or_pos k with hk | hk
        · subst hk
          refine ⟨⟨false, m, shot⟩, ?_, rfl⟩
          simp [retryLoop, hx, hZ rfl]
        · obtain ⟨r, hr, hrs⟩ := hS hk
          refine ⟨r, ?_, hrs⟩
          simp [retryLoop, hx, hr]
    | exn m =>
      have hfail2 : ∀ i, att + 1 ≤ i → i < att + 1 + k → isOk (ex i) = false := by
        intro i h1 h2; exact hfail i (by omega) (by omega)
      obtain ⟨hInv, hInc, hZ, hS⟩ :=
        ih (att + 1) (some ⟨false, m, none⟩) hfail2
      refine ⟨?_, ?_, ?_, ?_⟩
      · simp [retryLoop, hx, invokeCount_append, invokeCount_ite, hInv,
          invokeCount, isInvoke, List.filter]
      · simp [retryLoop, hx, incrementCount_append, incrementCount_ite, hInc,
          incrementCount, isIncrement, List.filter]
      · intro h; omega
      · intro _
        rcases Nat.eq_zero_or_pos k with hk | hk
        · subst hk
          refine ⟨⟨false, m, none⟩, ?_, rfl⟩
          simp [retryLoop, hx, hZ rfl]
        · obtain ⟨r, hr, hrs⟩ := hS hk
          refine ⟨r, ?_, hrs⟩
          simp [retryLoop, hx, hr]

theorem retryLoop_firstOk (ex : Executor) (uid jid : Nat) :
    ∀ rem att prev k,
      att ≤ k → k < att + rem →
      (∀ i, att ≤ i → i < k → isOk (ex i) = false) →
      isOk (ex k) = true →
      invokeCount (retryLoop ex uid jid rem att prev).1 = k + 1 - att ∧
      incrementCount (retryLoop ex uid jid rem att prev).1 = k + 1 - att ∧
      ∃ m shot, ex k = ExecOutcome.ok m shot ∧
        (retryLoop ex uid jid rem att prev).2 = some ⟨true, m, shot⟩ := by
  intro rem
  induction rem with
  | zero => intro att prev k h1 h2 _ _; omega
  | succ n ih =>
    intro att prev k h1 h2 hbefore hk
    by_cases hak : att = k
    · subst hak
      cases hx : ex att with
      | ok m shot =>
        refine ⟨?_, ?_, m, shot, ?_, ?_⟩
        · simp [retryLoop, hx, invokeCount_append, invokeCount_ite, invokeCount]
        · simp [retryLoop, hx, incrementCount_append, incrementCount_ite,
            incrementCount]
        · rfl
        · simp [retryLoop, hx]
      | fail m shot => rw [hx] at hk; simp [isOk] at hk
      | exn m => rw [hx] at hk; simp [isOk] at hk
    · have haltk : att < k := by omega
      have hA : isOk (ex att) = false := hbefore att (le_refl att) haltk
      have hbefore2 : ∀ i, att + 1 ≤ i → i < k → isOk (ex i) = false := by
        intro i hi1 hi2; exact hbefore i (by omega) hi2
      cases hx : ex att with
      | ok m shot => rw [hx] at hA; simp [isOk] at hA
      | fail m shot =>
        obtain ⟨hInv, hInc, m2, shot2, hx2, hres⟩ :=
          ih (att + 1) (some ⟨false, m, shot⟩) k (by omega) (by omega)
            hbefore2 hk
        refine ⟨?_, ?_, m2, shot2, ?_, ?_⟩
        · simp [retryLoop, hx, invokeCount_append, invokeCount_ite,
            invokeCount, hInv]
          omega
        · simp [retryLoop, hx, incrementCount_append, incrementCount_ite,
            incrementCount, hInc]
          omega
        · exact hx2
        · simp [retryLoop, hx, hres]
      | exn m =>
        obtain ⟨hInv, hInc, m2, shot2, hx2, hres⟩ :=
          ih (att + 1) (some ⟨false, m, none⟩) k (by omega) (by omega)
            hbefore2 hk
        refine ⟨?_, ?_, m2, shot2, ?_, ?_⟩
        · simp [retryLoop, hx, invokeCount_append, invokeCount_ite,
            invokeCount, hInv]
          omega
        · simp [retryLoop, hx, incrementCount_append, incrementCount_ite,
            incrementCount, hInc]
          omega
        · exact hx2
        · simp [retryLoop, hx, hres]

theorem retryLoop_normExn (ex : Executor) (uid jid : Nat) :
    ∀ rem att prev,
      retryLoop (normExn ex) uid jid rem att prev
        = retryLoop ex uid jid rem att prev := by
  intro rem
  induction rem with
  | zero => intro att prev; rfl
  | succ k ih =>
    intro att prev
    cases hx : ex att with
    | ok m shot => simp [retryLoop, normExn, hx]
    | fail m shot => simp [retryLoop, normExn, hx, ih]
    | exn m => simp [retryLoop, normExn, hx, ih]

theorem execute_normExn (active : List Key) (creds : Bool) (ex : Executor)
    (j : Job) :
    execute active creds (normExn ex) j = execute active creds ex j := by
  unfold execute finalWrite finalShot
  rw [retryLoop_normExn]

theorem finalWrite_status (ex : Executor) (j : Job) :
    (finalWrite ex j).1 = Status.success ∨ (finalWrite ex j).1 = Status.failed := by
  unfold finalWrite
  rcases h : (retryLoop ex j.user_id j.id MAX_RETRIES_PER_JOB 1 none).2 with _ | r
  · right; rfl
  · by_cases hs : r.success = true
    · left; simp [hs]
    · right; simp [hs]

theorem execute_main_shape (ex : Executor) (j : Job) (active : List Key)
    (h : collisionKey j ∉ active) :
    (execute active true ex j).events
      = Event.notify j.user_id (firingMsg j) none ::
        ((retryLoop ex j.user_id j.id MAX_RETRIES_PER_JOB 1 none).1 ++
         [Event.dbStatusWrite j.id (finalWrite ex j).1 (finalWrite ex j).2,
          Event.notify j.user_id (finalWrite ex j).2 (finalShot ex j)]) ∧
    (execute active true ex j).active = active := by
  unfold execute
  simp [h]

theorem execute_statusWrites (active : List Key) (creds : Bool)
    (ex : Executor) (j : Job) :
    ∃ st m, statusWrites (execute active creds ex j).events = [(j.id, st, m)]
      ∧ (st = Status.success ∨ st = Status.failed) := by
  unfold execute
  by_cases h : collisionKey j ∈ active
  · refine ⟨Status.failed, collisionMsg, ?_, Or.inr rfl⟩
    simp [h, statusWrites]
  · cases creds
    · refine ⟨Status.failed, noCredsMsg, ?_, Or.inr rfl⟩
      simp [h, statusWrites]
    · refine ⟨(finalWrite ex j).1, (finalWrite ex j).2, ?_, finalWrite_status ex j⟩
      simp [h, statusWrites_append, retryLoop_statusWrites, statusWrites]

theorem monthLen_pos (y m : Nat) : 1 ≤ monthLen y m := by
  unfold monthLen
  split
  · split <;> omega
  · split <;> omega

theorem daysBeforeMonth_step (y m : Nat) (h2 : 2 ≤ m) (h12 : m ≤ 12) :
    daysBeforeMonth y (m - 1) + monthLen y (m - 1) = daysBeforeMonth y m := by
  interval_cases m <;>
    cases hL : isLeap y <;>
      simp [daysBeforeMonth, cumDays, monthLen, hL] <;> omega

theorem leapCount_step (n : Nat) (h : 1 ≤ n) :
    leapCount (n - 1) + (if isLeap n then 1 else 0) = leapCount n := by
  unfold leapCount isLeap
  split
  · rename_i hL
    simp only [decide_eq_true_eq] at hL
    omega
  · rename_i hL
    simp only [decide_eq_true_eq] at hL
    push_neg at hL
    omega

theorem predDay_correct (x : Ymd) (hv : validYmd x = true) (hy : 2 ≤ x.year) :
    validYmd (predDay x) = true ∧
    toDayNumber (predDay x) + 1 = toDayNumber x ∧
    x.year - 1 ≤ (predDay x).year := by
  obtain ⟨y, m, d⟩ := x
  simp only [validYmd, decide_eq_true_eq] at hv
  obtain ⟨hy1, hm1, hm12, hd1, hdle⟩ := hv
  simp only at hy hdle ⊢
  unfold predDay
  by_cases hd : 2 ≤ d
  · simp only [if_pos hd]
    refine ⟨?_, ?_, ?_⟩
    · simp only [validYmd, decide_eq_true_eq]
      refine ⟨hy1, hm1, hm12, by omega, by omega⟩
    · simp only [toDayNumber]
      omega
    · omega
  · have hd1a : d = 1 := by omega
    subst hd1a
    simp only [if_neg hd]
    by_cases hm : 2 ≤ m
    · simp only [if_pos hm]
      have hstep := daysBeforeMonth_step y m hm hm12
      refine ⟨?_, ?_, ?_⟩
      · simp only [validYmd, decide_eq_true_eq]
        exact ⟨hy1, by omega, by omega, monthLen_pos y (m - 1), le_refl _⟩
      · simp only [toDayNumber]
        have hp := monthLen_pos y (m - 1)
        omega
      · omega
    · have hm1a : m = 1 := by omega
      subst hm1a
      simp only [if_neg hm]
      obtain ⟨n, rfl⟩ : ∃ n, y = n + 2 := ⟨y - 2, by omega⟩
      have e1 : (⟨n + 2 - 1, 12, 31⟩ : Ymd) = ⟨n + 1, 12, 31⟩ := by norm_num
      rw [e1]
      have hstep := leapCount_step (n + 1) (by omega)
      norm_num at hstep
      refine ⟨?_, ?_, ?_⟩
      · simp only [validYmd, decide_eq_true_eq]
        refine ⟨by omega, by omega, by omega, by omega, ?_⟩
        simp [monthLen]
      · have hno : ¬ (3 ≤ 1 ∧ isLeap (n + 2) = true) :=
          fun hc => absurd hc.1 (by omega)
        simp only [toDayNumber, daysBeforeMonth, cumDays, if_neg hno]
        simp only [show ((3 : Nat) ≤ 12) = True from by simp, true_and]
        have e2 : n + 1 - 1 = n := by omega
        have e3 : n + 2 - 1 = n + 1 := by omega
        rw [e2, e3]
        omega
      · exact le_refl _

theorem subDays_correct (x : Ymd) (n : Nat) (hv : validYmd x = true)
    (hy : n + 2 ≤ x.year) :
    validYmd (subDays x n) = true ∧
    toDayNumber (subDays x n) + n = toDayNumber x ∧
    x.year - n ≤ (subDays x n).year := by
  induction n with
  | zero =>
    refine ⟨hv, rfl, ?_⟩
    show x.year - 0 ≤ x.year
    omega
  | succ k ih =>
    obtain ⟨v, t, yb⟩ := ih (by omega)
    have hy2 : 2 ≤ (subDays x k).year := by omega
    obtain ⟨v2, t2, yb2⟩ := predDay_correct (subDays x k) v hy2
    refine ⟨v2, ?_, ?_⟩
    · show toDayNumber (predDay (subDays x k)) + (k + 1) = toDayNumber x
      omega
    · show x.year - (k + 1) ≤ (predDay (subDays x k)).year
      omega

theorem strptime_Ymd_valid (s : String) (d : Ymd)
    (h : strptime_Ymd s = some d) : validYmd d = true := by
  unfold strptime_Ymd at h
  split at h
  · split at h
    · split at h
      · unfold mkYmd at h
        split at h
        · rename_i hval
          obtain rfl : _ = d := Option.some_injective _ h
          exact hval
        · exact absurd h (by simp)
      · exact absurd h (by simp)
    · exact absurd h (by simp)
  · exact absurd h (by simp)


/-! ## Invariants of the sequential system and of the two-run system -/

/-- Invariant of the sequential system: armed ids are distinct, stored
records are keyed by their own id, and an armed id is still pending. -/
def SysInv (s : SysState) : Prop :=
  s.armed.Nodup ∧
  (∀ id j st, s.store id = some (j, st) → j.id = id) ∧
  (∀ id, id ∈ s.armed → ∃ j, s.store id = some (j, Status.pending))

theorem okStepWith_refl (ok : Status → Status → Bool)
    (h : ∀ a, ok a a = true) (o : Option Status) :
    okStepWith ok o o = true := by
  cases o with
  | none => rfl
  | some a => exact h a

theorem okTransitionAmended_refl (a : Status) : okTransitionAmended a a = true := by
  cases a <;> rfl

theorem applyWrites_single (st : Store) (i0 : Nat) (w : Status) (m : String) :
    applyWrites st [(i0, w, m)]
      = fun i => if i = i0 then (st i).map (fun p => (p.1, w)) else st i := rfl

theorem stepOp_ok (s : SysState) (op : Op) (hInv : SysInv s) :
    SysInv (stepOp s op) ∧
    ∀ id, okStepWith okTransitionAmended (statusOf s id)
      (statusOf (stepOp s op) id) = true := by
  obtain ⟨hnd, hkey, harm⟩ := hInv
  have noopCase : ∀ t : SysState, stepOp s op = t → t = s →
      SysInv (stepOp s op) ∧
      ∀ id, okStepWith okTransitionAmended (statusOf s id)
        (statusOf (stepOp s op) id) = true := by
    intro t heq hts
    subst hts
    rw [heq]
    exact ⟨⟨hnd, hkey, harm⟩,
      fun id => okStepWith_refl _ okTransitionAmended_refl _⟩
  cases op with
  | createJob j =>
    cases h : s.store j.id with
    | some p => exact noopCase s (by simp [stepOp, h]) rfl
    | none =>
      have hnotarm : j.id ∉ s.armed := by
        intro hmem
        obtain ⟨j2, hj2⟩ := harm j.id hmem
        rw [h] at hj2
        exact absurd hj2 (by simp)
      refine ⟨⟨?_, ?_, ?_⟩, fun id => ?_⟩
      · simp only [stepOp, h]
        exact List.Nodup.cons hnotarm hnd
      · intro id j2 st2 hst
        simp only [stepOp, h] at hst
        by_cases hid : id = j.id
        · subst hid
          simp only [if_pos rfl] at hst
          obtain ⟨rfl, rfl⟩ := by
            simpa using hst
          rfl
        · simp only [if_neg hid] at hst
          exact hkey id j2 st2 hst
      · intro id hmem
        simp only [stepOp, h] at hmem ⊢
        by_cases hid : id = j.id
        · subst hid
          exact ⟨j, by simp⟩
        · rcases List.mem_cons.mp hmem with heq | hmem2
          · exact absurd heq hid
          · obtain ⟨j2, hj2⟩ := harm id hmem2
            exact ⟨j2, by simp [if_neg hid, hj2]⟩
      · simp only [stepOp, h, statusOf]
        by_cases hid : id = j.id
        · subst hid
          simp [h, okStepWith]
        · simp [if_neg hid]
          exact okStepWith_refl _ okTransitionAmended_refl _
  | cancelJob jobId uid =>
    cases h : s.store jobId with
    | none => exact noopCase s (by simp [stepOp, h]) rfl
    | some p =>
      obtain ⟨j, st⟩ := p
      cases st with
      | pending =>
        by_cases howner : j.user_id = uid
        · refine ⟨⟨?_, ?_, ?_⟩, fun id => ?_⟩
          · simp only [stepOp, h, if_pos howner]
            exact List.Nodup.erase jobId hnd
          · intro id j2 st2 hst
            simp only [stepOp, h, if_pos howner] at hst
            by_cases hid : id = jobId
            · subst hid
              simp only [if_pos rfl] at hst
              obtain ⟨rfl, rfl⟩ := by simpa using hst
              exact hkey id j Status.pending h
            · simp only [if_neg hid] at hst
              exact hkey id j2 st2 hst
          · intro id hmem
            simp only [stepOp, h, if_pos howner] at hmem ⊢
            have hmem2 : id ∈ s.armed := List.mem_of_mem_erase hmem
            by_cases hid : id = jobId
            · subst hid
              exact absurd hmem (List.Nodup.not_mem_erase hnd)
            · obtain ⟨j2, hj2⟩ := harm id hmem2
              exact ⟨j2, by simp [if_neg hid, hj2]⟩
          · simp only [stepOp, h, if_pos howner, statusOf]
            by_cases hid : id = jobId
            · subst hid
              simp [h, okStepWith, okTransitionAmended]
            · simp [if_neg hid]
              exact okStepWith_refl _ okTransitionAmended_refl _
        · exact noopCase s (by simp [stepOp, h, if_neg howner]) rfl
      | executing => exact noopCase s (by simp [stepOp, h]) rfl
      | success => exact noopCase s (by simp [stepOp, h]) rfl
      | failed => exact noopCase s (by simp [stepOp, h]) rfl
      | cancelled => exact noopCase s (by simp [stepOp, h]) rfl
  | fire jobId creds ex =>
    by_cases harmq : jobId ∈ s.armed
    · have hc : s.armed.contains jobId = true := by simpa using harmq
      cases h : s.store jobId with
      | none =>
        have hstep : stepOp s (Op.fire jobId creds ex)
            = ⟨s.store, s.armed.erase jobId⟩ := by
          simp [stepOp, hc, h, harmq]
        rw [hstep]
        refine ⟨⟨List.Nodup.erase jobId hnd, hkey, ?_⟩, fun id => ?_⟩
        · intro id hmem
          exact harm id (List.mem_of_mem_erase hmem)
        · exact okStepWith_refl _ okTransitionAmended_refl _
      | some p =>
        obtain ⟨j, st⟩ := p
        have hjid : j.id = jobId := hkey jobId j st h
        obtain ⟨wst, wm, hw, hws⟩ := execute_statusWrites [] creds ex j
        have hpend : st = Status.pending := by
          obtain ⟨j2, hj2⟩ := harm jobId harmq
          rw [h] at hj2
          obtain ⟨rfl, rfl⟩ := by simpa using hj2
          rfl
        subst hpend
        have hstep : stepOp s (Op.fire jobId creds ex)
            = ⟨fun i => if i = jobId
                then (s.store i).map (fun p => (p.1, wst)) else s.store i,
               s.armed.erase jobId⟩ := by
          simp only [stepOp, hc, if_true, h, hw, applyWrites_single, hjid]
        rw [hstep]
        refine ⟨⟨List.Nodup.erase jobId hnd, ?_, ?_⟩, fun id => ?_⟩
        · intro id j2 st2 hst
          simp only at hst
          by_cases hid : id = jobId
          · subst hid
            simp only [if_pos rfl, h] at hst
            obtain ⟨rfl, rfl⟩ := by simpa using hst
            exact hjid
          · simp only [if_neg hid] at hst
            exact hkey id j2 st2 hst
        · intro id hmem
          simp only at hmem ⊢
          have hmem2 : id ∈ s.armed := List.mem_of_mem_erase hmem
          by_cases hid : id = jobId
          · subst hid
            exact absurd hmem (List.Nodup.not_mem_erase hnd)
          · obtain ⟨j2, hj2⟩ := harm id hmem2
            exact ⟨j2, by simp [if_neg hid, hj2]⟩
        · simp only [statusOf]
          by_cases hid : id = jobId
          · subst hid
            rcases hws with hs | hs <;>
              simp [h, hs, okStepWith, okTransitionAmended]
          · simp only [if_neg hid]
            exact okStepWith_refl _ okTransitionAmended_refl _
    · have hc : s.armed.contains jobId = false := by simpa using harmq
      exact noopCase s (by simp [stepOp, hc, harmq]) rfl

theorem foldl_stepOp_inv (ops : List Op) :
    ∀ s, SysInv s → SysInv (ops.foldl stepOp s) := by
  induction ops with
  | nil => intro s h; exact h
  | cons op rest ih => intro s h; exact ih _ (stepOp_ok s op h).1

theorem sysInit_inv : SysInv sysInit := by
  refine ⟨List.nodup_nil, ?_, ?_⟩
  · intro id j st h
    exact absurd h (by simp [sysInit])
  · intro id h
    exact absurd h (by simp [sysInit])

theorem runOps_inv (ops : List Op) : SysInv (runOps ops) :=
  foldl_stepOp_inv ops sysInit sysInit_inv

theorem runOps_append_one (ops : List Op) (op : Op) :
    runOps (ops ++ [op]) = stepOp (runOps ops) op := by
  simp [runOps, List.foldl_append]

/-- What a run's status-write log must look like at each control point:
nothing before it finishes, the collision write after the collision
branch, the terminal write of the retry loop after a normal finish. -/
def runWrites (ex : Executor) (j : Job) :
    RunPC → List (Status × String) → Prop
  | RunPC.idle, w => w = []
  | RunPC.critical, w => w = []
  | RunPC.doneCollision, w => w = [(Status.failed, collisionMsg)]
  | RunPC.doneNormal, w => w = [finalWrite ex j]

/-- Inductive invariant of the two-run system: the guard holds at most
the shared key; the key is held exactly while one of the runs is inside
the critical section; never both inside; a collision finish means the
other run was already inside (or finished normally from) the critical
section; and each run's writes match its control point. -/
def DuelInv (j1 j2 : Job) (ex1 ex2 : Executor) (s : Duel) : Prop :=
  (s.held = [] ∨ s.held = [collisionKey j1]) ∧
  ((s.pc1 = RunPC.critical ∨ s.pc2 = RunPC.critical)
    ↔ s.held = [collisionKey j1]) ∧
  ¬(s.pc1 = RunPC.critical ∧ s.pc2 = RunPC.critical) ∧
  (s.pc1 = RunPC.doneCollision
    → s.pc2 = RunPC.critical ∨ s.pc2 = RunPC.doneNormal) ∧
  (s.pc2 = RunPC.doneCollision
    → s.pc1 = RunPC.critical ∨ s.pc1 = RunPC.doneNormal) ∧
  runWrites ex1 j1 s.pc1 s.writes1 ∧
  runWrites ex2 j2 s.pc2 s.writes2

theorem duelInit_inv (j1 j2 : Job) (ex1 ex2 : Executor) :
    DuelInv j1 j2 ex1 ex2 duelInit := by
  refine ⟨Or.inl rfl, ?_, ?_, ?_, ?_, rfl, rfl⟩
  · constructor
    · rintro (h | h) <;> exact absurd h (by simp [duelInit])
    · intro h
      exact absurd h (by simp [duelInit])
  · rintro ⟨h, _⟩
    exact absurd h (by simp [duelInit])
  · intro h
    exact absurd h (by simp [duelInit])
  · intro h
    exact absurd h (by simp [duelInit])

theorem stepDuel_inv (j1 j2 : Job) (ex1 ex2 : Executor)
    (hk : collisionKey j2 = collisionKey j1) (s : Duel) (t : Bool)
    (h : DuelInv j1 j2 ex1 ex2 s) :
    DuelInv j1 j2 ex1 ex2 (stepDuel j1 j2 ex1 ex2 s t) := by
  obtain ⟨held, pc1, pc2, w1, w2⟩ := s
  obtain ⟨hheld, hiff, hmutex, hc1, hc2, hw1, hw2⟩ := h
  simp only at hheld hiff hmutex hc1 hc2 hw1 hw2
  cases t with
  | true =>
    cases pc1 with
    | idle =>
      simp only [runWrites] at hw1
      subst hw1
      rcases hheld with h0 | h1
      · subst h0
        have hpc2 : pc2 ≠ RunPC.critical := by
          intro hq
          exact absurd (hiff.mp (Or.inr hq)) (by simp)
        have hred : stepDuel j1 j2 ex1 ex2
            ⟨[], RunPC.idle, pc2, [], w2⟩ true
            = ⟨[collisionKey j1], RunPC.critical, pc2, [], w2⟩ := by
          simp [stepDuel, stepRun]
        rw [hred]
        refine ⟨Or.inr rfl, ⟨fun _ => rfl, fun _ => Or.inl rfl⟩, ?_, ?_, ?_,
          rfl, hw2⟩
        · rintro ⟨_, hq⟩
          exact hpc2 hq
        · intro hq
          exact absurd hq (by simp)
        · intro _
          exact Or.inl rfl
      · subst h1
        have hpc2 : pc2 = RunPC.critical := by
          rcases hiff.mpr rfl with hq | hq
          · exact absurd hq (by simp)
          · exact hq
        subst hpc2
        have hred : stepDuel j1 j2 ex1 ex2
            ⟨[collisionKey j1], RunPC.idle, RunPC.critical, [], w2⟩ true
            = ⟨[collisionKey j1], RunPC.doneCollision, RunPC.critical,
               [(Status.failed, collisionMsg)], w2⟩ := by
          simp [stepDuel, stepRun]
        rw [hred]
        refine ⟨Or.inr rfl, ⟨fun _ => rfl, fun _ => Or.inr rfl⟩, ?_, ?_, ?_,
          rfl, hw2⟩
        · rintro ⟨hq, _⟩
          exact absurd hq (by simp)
        · intro _
          exact Or.inl rfl
        · intro hq
          exact absurd hq (by simp)
    | critical =>
      simp only [runWrites] at hw1
      subst hw1
      have h1 : held = [collisionKey j1] := hiff.mp (Or.inl rfl)
      subst h1
      have hpc2 : pc2 ≠ RunPC.critical := fun hq => hmutex ⟨rfl, hq⟩
      have hred : stepDuel j1 j2 ex1 ex2
          ⟨[collisionKey j1], RunPC.critical, pc2, [], w2⟩ true
          = ⟨[], RunPC.doneNormal, pc2, [finalWrite ex1 j1], w2⟩ := by
        simp [stepDuel, stepRun]
      rw [hred]
      refine ⟨Or.inl rfl, ⟨?_, ?_⟩, ?_, ?_, ?_, rfl, hw2⟩
      · rintro (hq | hq)
        · exact absurd hq (by simp)
        · exact absurd hq hpc2
      · intro hq
        exact absurd hq (by simp)
      · rintro ⟨hq, _⟩
        exact absurd hq (by simp)
      · intro hq
        exact absurd hq (by simp)
      · intro _
        exact Or.inr rfl
    | doneCollision =>
      simp only [stepDuel, stepRun]
      exact ⟨hheld, hiff, hmutex, hc1, hc2, hw1, hw2⟩
    | doneNormal =>
      simp only [stepDuel, stepRun]
      exact ⟨hheld, hiff, hmutex, hc1, hc2, hw1, hw2⟩
  | false =>
    cases pc2 with
    | idle =>
      simp only [runWrites] at hw2
      subst hw2
      rcases hheld with h0 | h1
      · subst h0
        have hpc1 : pc1 ≠ RunPC.critical := by
          intro hq
          exact absurd (hiff.mp (Or.inl hq)) (by simp)
        have hred : stepDuel j1 j2 ex1 ex2
            ⟨[], pc1, RunPC.idle, w1, []⟩ false
            = ⟨[collisionKey j2], pc1, RunPC.critical, w1, []⟩ := by
          simp [stepDuel, stepRun]
        rw [hred]
        refine ⟨Or.inr (by rw [hk]), ⟨fun _ => by rw [hk], fun _ => Or.inr rfl⟩,
          ?_, ?_, ?_, hw1, rfl⟩
        · rintro ⟨hq, _⟩
          exact hpc1 hq
        · intro _
          exact Or.inl rfl
        · intro hq
          exact absurd hq (by simp)
      · subst h1
        have hpc1 : pc1 = RunPC.critical := by
          rcases hiff.mpr rfl with hq | hq
          · exact hq
          · exact absurd hq (by simp)
        subst hpc1
        have hmem : ([collisionKey j1] : List Key).contains (collisionKey j2)
            = true := by
          rw [hk]
          simp
        have hred : stepDuel j1 j2 ex1 ex2
            ⟨[collisionKey j1], RunPC.critical, RunPC.idle, w1, []⟩ false
            = ⟨[collisionKey j1], RunPC.critical, RunPC.doneCollision, w1,
               [(Status.failed, collisionMsg)]⟩ := by
          simp [stepDuel, stepRun, hk]
        rw [hred]
        refine ⟨Or.inr rfl, ⟨fun _ => rfl, fun _ => Or.inl rfl⟩, ?_, ?_, ?_,
          hw1, rfl⟩
        · rintro ⟨_, hq⟩
          exact absurd hq (by simp)
        · intro hq
          exact absurd hq (by simp)
        · intro _
          exact Or.inl rfl
    | critical =>
      simp only [runWrites] at hw2
      subst hw2
      have h1 : held = [collisionKey j1] := hiff.mp (Or.inr rfl)
      subst h1
      have hpc1 : pc1 ≠ RunPC.critical := fun hq => hmutex ⟨hq, rfl⟩
      have herase : ([collisionKey j1] : List Key).erase (collisionKey j2)
          = [] := by
        rw [hk]
        simp
      have hred : stepDuel j1 j2 ex1 ex2
          ⟨[collisionKey j1], pc1, RunPC.critical, w1, []⟩ false
          = ⟨[], pc1, RunPC.doneNormal, w1, [finalWrite ex2 j2]⟩ := by
        simp [stepDuel, stepRun, herase]
      rw [hred]
      refine ⟨Or.inl rfl, ⟨?_, ?_⟩, ?_, ?_, ?_, hw1, rfl⟩
      · rintro (hq | hq)
        · exact absurd hq hpc1
        · exact absurd hq (by simp)
      · intro hq
        exact absurd hq (by simp)
      · rintro ⟨_, hq⟩
        exact absurd hq (by simp)
      · intro _
        exact Or.inr rfl
      · intro hq
        exact absurd hq (by simp)
    | doneCollision =>
      simp only [stepDuel, stepRun]
      exact ⟨hheld, hiff, hmutex, hc1, hc2, hw1, hw2⟩
    | doneNormal =>
      simp only [stepDuel, stepRun]
      exact ⟨hheld, hiff, hmutex, hc1, hc2, hw1, hw2⟩

theorem runDuel_inv (j1 j2 : Job) (ex1 ex2 : Executor)
    (hk : collisionKey j2 = collisionKey j1) (w : List Bool) :
    DuelInv j1 j2 ex1 ex2 (runDuel j1 j2 ex1 ex2 w) := by
  suffices hgen : ∀ s, DuelInv j1 j2 ex1 ex2 s
      → DuelInv j1 j2 ex1 ex2 (w.foldl (stepDuel j1 j2 ex1 ex2) s) from
    hgen duelInit (duelInit_inv j1 j2 ex1 ex2)
  induction w with
  | nil => intro s h; exact h
  | cons t rest ih =>
    intro s h
    exact ih _ (stepDuel_inv j1 j2 ex1 ex2 hk s t h)


/-! ## The claims -/

theorem nonTerminalWrite_false_of_not_statusWrite (e : Event)
    (h : isStatusWrite e = false) : nonTerminalWrite e = false := by
  cases e with
  | dbStatusWrite i s m => exact absurd h (by simp [isStatusWrite])
  | dbIncrementAttempts i => rfl
  | invoke a => rfl
  | notify u m sh => rfl
  | sleep n => rfl

theorem no_statusWrite_of_statusWrites_nil :
    ∀ evs : List Event, statusWrites evs = []
      → evs.all (fun e => !isStatusWrite e) = true := by
  intro evs
  induction evs with
  | nil => intro _; rfl
  | cons e t ih =>
    intro h
    cases e with
    | dbStatusWrite i s m => exact absurd h (by simp [statusWrites])
    | dbIncrementAttempts i =>
      simp only [statusWrites] at h
      simp only [List.all_cons, ih h, Bool.and_true]
      rfl
    | invoke a =>
      simp only [statusWrites] at h
      simp only [List.all_cons, ih h, Bool.and_true]
      rfl
    | notify u m sh =>
      simp only [statusWrites] at h
      simp only [List.all_cons, ih h, Bool.and_true]
      rfl
    | sleep n =>
      simp only [statusWrites] at h
      simp only [List.all_cons, ih h, Bool.and_true]
      rfl

theorem isOk_false_of_isExn (o : ExecOutcome) (h : isExn o = true) :
    isOk o = false := by
  cases o with
  | ok m sh => exact absurd h (by simp [isExn])
  | fail m sh => rfl
  | exn m => rfl

/-- Claim C1 — counterexample.  The claim requires a compare-and-swap
write of 'executing' after key acquisition and before any Executor
invocation.  On a concrete collision-free run with credentials present the
Executor is invoked once, yet no 'executing' write precedes it (none
exists anywhere in the trace): `_execute` has no such transition. -/
theorem C1_counterexample :
    invokeCount (execute [] true exOk jobA).events = 1 ∧
    executingWriteBeforeInvoke (execute [] true exOk jobA).events = false := by
  decide

/-- Claim C1 — amended.  The run performs no compare-and-swap and no
stored-status transition at all: every status write in any run's trace
is terminal ('success' or 'failed', never 'executing' or 'pending'), and
on a collision-free run with credentials present the effects preceding
the first Executor invocation are exactly the owner's firing
notification and one attempt-counter increment — the increment at
scheduler.py line 214, not a status transition, is the only store write
before the Executor runs.  A job replayed after a restart is therefore
not re-checked against its stored status; only the in-memory collision
key guards against duplicates. -/
theorem C1_amended_thm (active : List Key) (creds : Bool) (ex : Executor)
    (j : Job) :
    (execute active creds ex j).events.all (fun e => !nonTerminalWrite e)
      = true ∧
    (collisionKey j ∉ active →
      (execute active true ex j).events.takeWhile (fun e => !isInvoke e)
        = [Event.notify j.user_id (firingMsg j) none,
           Event.dbIncrementAttempts j.id]) := by
  constructor
  · by_cases h : collisionKey j ∈ active
    · have hc : active.contains (collisionKey j) = true := by simpa using h
      unfold execute
      simp [hc, h, nonTerminalWrite]
    · have hc : active.contains (collisionKey j) = false := by simpa using h
      cases creds with
      | false =>
        unfold execute
        simp [hc, h, nonTerminalWrite]
      | true =>
        obtain ⟨hev, _⟩ := execute_main_shape ex j active h
        rw [hev, List.all_cons, List.all_append]
        simp only [Bool.and_eq_true]
        refine ⟨rfl, ?_, ?_⟩
        · have hnil := retryLoop_statusWrites ex j.user_id j.id
            MAX_RETRIES_PER_JOB 1 none
          have hall := no_statusWrite_of_statusWrites_nil _ hnil
          rw [List.all_eq_true] at hall ⊢
          intro e he
          have := hall e he
          simp only [Bool.not_eq_eq_eq_not, Bool.not_true] at this ⊢
          exact nonTerminalWrite_false_of_not_statusWrite e this
        · have hand : ∀ a b : Bool, a = true → b = true → (a && b) = true := by
            decide
          rcases finalWrite_status ex j with hs | hs <;>
            simp [hs, nonTerminalWrite]
  · intro h
    obtain ⟨hev, _⟩ := execute_main_shape ex j active h
    rw [hev]
    cases hx : ex 1 <;>
      simp [retryLoop, hx, MAX_RETRIES_PER_JOB, List.takeWhile, isInvoke]

/-- Witness for the amended C1 on a concrete collision-free run. -/
theorem C1_amended_witness :
    (execute [] true exOk jobA).events.all (fun e => !nonTerminalWrite e)
      = true ∧
    (execute [] true exOk jobA).events.takeWhile (fun e => !isInvoke e)
      = [Event.notify jobA.user_id (firingMsg jobA) none,
         Event.dbIncrementAttempts jobA.id] :=
  ⟨(C1_amended_thm [] true exOk jobA).1,
   (C1_amended_thm [] true exOk jobA).2 (by simp)⟩

/-- Claim C2 — counterexample.  The claim's concrete instance places the
fire instant at `2024-03-03T00:01:00Z` (UTC).  The code fixes the
timezone to Asia/Dubai: for target `2024-03-10` it produces
`2024-03-03T00:01:00+04:00`, a different instant
(`2024-03-02T20:01:00Z`). -/
theorem C2_counterexample :
    compute_fire_at "2024-03-10" = some "2024-03-03T00:01:00+04:00" ∧
    (compute_fire_date "2024-03-10").map (fun f => utcSeconds f 0 1 0 240)
      ≠ some (utcSeconds ⟨2024, 3, 3⟩ 0 1 0 0) := by
  decide

/-- Claim C2 — amended.  For every valid booking date string (the
zero-padded `YYYY-MM-DD` format the bot generates, year ≥ 1921 where
Asia/Dubai is the fixed +04:00 zone), the computed fire time equals the
spec's calendar computation instantiated at the code's fixed parameters:
subtract 7 calendar days, localize at 00:01 in Asia/Dubai (+04:00).  The
result is a valid calendar date rendered as an aware ISO string. -/
theorem C2_amended_thm (s : String) (d : Ymd) (hp : strptime_Ymd s = some d)
    (hy : 1921 ≤ d.year) :
    compute_fire_at s = some (renderIsoDubai (subDays d 7)) ∧
    validYmd (subDays d 7) = true ∧
    utcSeconds (subDays d 7) 0 1 0 240 = fireTimeSpecSeconds d 7 0 1 240 := by
  have hv := strptime_Ymd_valid s d hp
  obtain ⟨hval, htd, _⟩ := subDays_correct d 7 hv (by omega)
  refine ⟨?_, hval, ?_⟩
  · simp [compute_fire_at, compute_fire_date, hp]
  · simp only [utcSeconds, fireTimeSpecSeconds]
    omega

/-- Witness for the amended C2 at the spec's concrete target date. -/
theorem C2_amended_witness :
    compute_fire_at "2024-03-10"
      = some (renderIsoDubai (subDays ⟨2024, 3, 10⟩ 7)) ∧
    validYmd (subDays ⟨2024, 3, 10⟩ 7) = true ∧
    utcSeconds (subDays ⟨2024, 3, 10⟩ 7) 0 1 0 240
      = fireTimeSpecSeconds ⟨2024, 3, 10⟩ 7 0 1 240 :=
  C2_amended_thm "2024-03-10" ⟨2024, 3, 10⟩ (by decide) (by decide)

/-- Claim C5 — counterexample.  The claim requires the collision branch to
notify the job's owner.  On a concrete run whose key is already active the
trace is exactly the one failed-status write: it contains no notification
at all. -/
theorem C5_counterexample :
    (execute [collisionKey jobA] true exOk jobA).events
      = [Event.dbStatusWrite 1 Status.failed collisionMsg] ∧
    (execute [collisionKey jobA] true exOk jobA).events.all
      (fun e => !isNotify e) = true := by
  decide

/-- Claim C5 — amended.  When collision-key acquisition fails, the run
writes 'failed' with the collision message and returns immediately: no
owner notification, no Executor invocation, no attempt increment, and the
guard set is left exactly as it was. -/
theorem C5_amended_thm (active : List Key) (creds : Bool) (ex : Executor)
    (j : Job) (h : collisionKey j ∈ active) :
    execute active creds ex j
      = ⟨[Event.dbStatusWrite j.id Status.failed collisionMsg], active⟩ := by
  have hc : active.contains (collisionKey j) = true := by simpa using h
  unfold execute
  simp [hc, h]

/-- Witness for the amended C5 on a concrete colliding run. -/
theorem C5_amended_witness :
    execute [collisionKey jobB] false exAlwaysFail jobB
      = ⟨[Event.dbStatusWrite jobB.id Status.failed collisionMsg],
         [collisionKey jobB]⟩ :=
  C5_amended_thm [collisionKey jobB] false exAlwaysFail jobB (by simp)

/-- Claim C7 — counterexample.  The claim requires a distinguishable
fatal Executor outcome to short-circuit the retry loop.  With an Executor
that raises a permanently-fatal error on every attempt, the run still
performs all `MAX_RETRIES_PER_JOB = 3` invocations — nothing
short-circuits, because the `except` clause treats every raised error as
one more retryable failure. -/
theorem C7_counterexample :
    invokeCount (execute [] true exAlwaysExn jobC).events
      = MAX_RETRIES_PER_JOB ∧ 1 < MAX_RETRIES_PER_JOB := by
  decide

/-- Claim C7 — amended.  The code distinguishes no fatal Executor
outcome: any run whose every attempt raises performs exactly
`MAX_RETRIES_PER_JOB` invocations and ends with a single 'failed' status
write — raised errors are always retried until the attempt budget is
exhausted. -/
theorem C7_amended_thm (ex : Executor) (j : Job)
    (hexn : ∀ n, 1 ≤ n → n ≤ MAX_RETRIES_PER_JOB → isExn (ex n) = true) :
    invokeCount (execute [] true ex j).events = MAX_RETRIES_PER_JOB ∧
    ∃ m, statusWrites (execute [] true ex j).events
      = [(j.id, Status.failed, m)] := by
  have hfail : ∀ i, 1 ≤ i → i < 1 + MAX_RETRIES_PER_JOB → isOk (ex i) = false :=
    fun i h1 h2 => isOk_false_of_isExn (ex i) (hexn i h1 (by omega))
  obtain ⟨hInv, hInc, _, hS⟩ :=
    retryLoop_allFail ex j.user_id j.id MAX_RETRIES_PER_JOB 1 none hfail
  obtain ⟨r, hr, hrs⟩ := hS (by decide)
  obtain ⟨hev, _⟩ := execute_main_shape ex j [] (by simp)
  have hfw : finalWrite ex j = (Status.failed, failedMsg j r.message) := by
    unfold finalWrite
    rw [hr]
    simp [hrs]
  constructor
  · rw [hev]
    simp [invokeCount, invokeCount_append, hInv]
  · refine ⟨failedMsg j r.message, ?_⟩
    rw [hev]
    simp [statusWrites, statusWrites_append,
      retryLoop_statusWrites ex j.user_id j.id, hfw]

/-- Witness for the amended C7 with a concrete always-raising Executor. -/
theorem C7_amended_witness :
    invokeCount (execute [] true exAlwaysExn jobB).events
      = MAX_RETRIES_PER_JOB ∧
    ∃ m, statusWrites (execute [] true exAlwaysExn jobB).events
      = [(jobB.id, Status.failed, m)] :=
  C7_amended_thm exAlwaysExn jobB (fun n _ _ => rfl)

/-- Claim C10 — the code bug it exposes.  `compute_fire_at` serializes the
fire instant as an aware ISO string (`T` separator, `+04:00` offset); the
consumers in telegram_bot.py parse that stored string with the fixed
format `"%Y-%m-%d %H:%M:%S"`, which rejects it (Python raises
`ValueError`): the serialization and the consumers' parse format
disagree on every input.  The string is a perfectly well-formed aware
datetime — the scheduler's own `fromisoformat` path accepts it. -/
theorem C10_bug :
    compute_fire_at "2024-03-10" = some "2024-03-03T00:01:00+04:00" ∧
    strptime_Ymd_HMS "2024-03-03T00:01:00+04:00" = none ∧
    parse_fire_dt "2024-03-03T00:01:00+04:00"
      = some ⟨⟨2024, 3, 3⟩, 0, 1, 0, 240⟩ := by
  decide

/-- Claim C3 — confirmed.  Against an Executor whose every attempt fails
(returned `success=False` or raised — both arbitrary mixes are covered by
the hypothesis), a dispatched run performs exactly
`MAX_RETRIES_PER_JOB = 3` invocations and 3 attempt increments and ends
with a single 'failed' status write; and replacing every raised error by
a returned failure with the same message leaves the whole run
unchanged — a raise is treated identically to `success=false`. -/
theorem C3_thm (ex : Executor) (j : Job) :
    ((∀ n, 1 ≤ n → n ≤ MAX_RETRIES_PER_JOB → isOk (ex n) = false) →
      invokeCount (execute [] true ex j).events = MAX_RETRIES_PER_JOB ∧
      incrementCount (execute [] true ex j).events = MAX_RETRIES_PER_JOB ∧
      ∃ m, statusWrites (execute [] true ex j).events
        = [(j.id, Status.failed, m)]) ∧
    (∀ active creds,
      execute active creds (normExn ex) j = execute active creds ex j) := by
  constructor
  · intro hfail
    have hfail2 : ∀ i, 1 ≤ i → i < 1 + MAX_RETRIES_PER_JOB
        → isOk (ex i) = false :=
      fun i h1 h2 => hfail i h1 (by omega)
    obtain ⟨hInv, hInc, _, hS⟩ :=
      retryLoop_allFail ex j.user_id j.id MAX_RETRIES_PER_JOB 1 none hfail2
    obtain ⟨r, hr, hrs⟩ := hS (by decide)
    obtain ⟨hev, _⟩ := execute_main_shape ex j [] (by simp)
    have hfw : finalWrite ex j = (Status.failed, failedMsg j r.message) := by
      unfold finalWrite
      rw [hr]
      simp [hrs]
    refine ⟨?_, ?_, failedMsg j r.message, ?_⟩
    · rw [hev]
      simp [invokeCount, invokeCount_append, hInv]
    · rw [hev]
      simp [incrementCount, incrementCount_append, hInc]
    · rw [hev]
      simp [statusWrites, statusWrites_append,
        retryLoop_statusWrites ex j.user_id j.id, hfw]
  · intro active creds
    exact execute_normExn active creds ex j

/-- Witness for C3 with a concrete always-failing Executor. -/
theorem C3_witness :
    invokeCount (execute [] true exAlwaysFail jobC).events
      = MAX_RETRIES_PER_JOB ∧
    incrementCount (execute [] true exAlwaysFail jobC).events
      = MAX_RETRIES_PER_JOB ∧
    (∃ m, statusWrites (execute [] true exAlwaysFail jobC).events
      = [(jobC.id, Status.failed, m)]) ∧
    execute [] true (normExn exAlwaysFail) jobC
      = execute [] true exAlwaysFail jobC := by
  have h := C3_thm exAlwaysFail jobC
  obtain ⟨ha, hb, hc⟩ := h.1 (fun n _ _ => rfl)
  exact ⟨ha, hb, hc, h.2 [] true⟩

/-- Claim C4 — confirmed.  Against an Executor that first succeeds on
attempt `k` (1 ≤ k ≤ MAX_RETRIES_PER_JOB), a dispatched run performs
exactly `k` invocations and `k` increments — the loop breaks on the first
success — and ends with the single 'success' status write. -/
theorem C4_thm (ex : Executor) (j : Job) (k : Nat) (hk1 : 1 ≤ k)
    (hk3 : k ≤ MAX_RETRIES_PER_JOB)
    (hbefore : ∀ i, 1 ≤ i → i < k → isOk (ex i) = false)
    (hkOk : isOk (ex k) = true) :
    invokeCount (execute [] true ex j).events = k ∧
    incrementCount (execute [] true ex j).events = k ∧
    statusWrites (execute [] true ex j).events
      = [(j.id, Status.success, successMsg j)] := by
  obtain ⟨hInv, hInc, m, shot, hxm, hres⟩ :=
    retryLoop_firstOk ex j.user_id j.id MAX_RETRIES_PER_JOB 1 none k hk1
      (by omega) hbefore hkOk
  obtain ⟨hev, _⟩ := execute_main_shape ex j [] (by simp)
  have hfw : finalWrite ex j = (Status.success, successMsg j) := by
    unfold finalWrite
    rw [hres]
    rfl
  refine ⟨?_, ?_, ?_⟩
  · rw [hev]
    simp [invokeCount, invokeCount_append, hInv]
  · rw [hev]
    simp [incrementCount, incrementCount_append, hInc]
  · rw [hev]
    simp [statusWrites, statusWrites_append,
      retryLoop_statusWrites ex j.user_id j.id, hfw]

/-- Witness for C4: success on the second attempt gives exactly two
invocations and a 'success' outcome. -/
theorem C4_witness :
    invokeCount (execute [] true exFailThenOk jobA).events = 2 ∧
    incrementCount (execute [] true exFailThenOk jobA).events = 2 ∧
    statusWrites (execute [] true exFailThenOk jobA).events
      = [(jobA.id, Status.success, successMsg jobA)] :=
  C4_thm exFailThenOk jobA 2 (by omega) (by decide)
    (fun i h1 h2 => by
      have hi : i = 1 := by omega
      subst hi
      rfl)
    (by decide)

/-- Claim C6 — counterexample.  The claim allows a terminal status only
via 'executing'.  The concrete system trace create-then-fire moves job 1
straight from 'pending' to 'success', a move the claim's transition
relation rejects. -/
theorem C6_counterexample :
    statusOf (runOps [Op.createJob jobA]) jobA.id = some Status.pending ∧
    statusOf (runOps [Op.createJob jobA, Op.fire jobA.id true exOk]) jobA.id
      = some Status.success ∧
    okTransitionClaim Status.pending Status.success = false := by
  decide

/-- Claim C6 — amended.  Along every sequence of system operations
(create, cancel, fire) from the empty store, each job's stored status
moves only along pending → success, pending → failed, or
pending → cancelled (there is no 'executing' state), a job appears only
as 'pending', is never deleted, and never returns to 'pending' from any
other status. -/
theorem C6_amended_thm (ops : List Op) (op : Op) (id : Nat) :
    okStepWith okTransitionAmended (statusOf (runOps ops) id)
      (statusOf (runOps (ops ++ [op])) id) = true := by
  rw [runOps_append_one]
  exact (stepOp_ok (runOps ops) op (runOps_inv ops)).2 id

/-- Claim C8 — counterexample.  The claim requires a pending job whose
`fire_at` is already past to be dispatched immediately by `start()`.  For
a job whose fire instant (2024-03-03T00:01+04:00) lies before "now"
(2026-01-01T00:00Z), the spec-shaped startup produces an immediate
dispatch, but the code's startup arms a one-shot timer at the stored
instant and contains no immediate-dispatch action at all. -/
theorem C8_counterexample :
    startActions [jobA]
      = [SchedAction.armTimer jobA.id ⟨⟨2024, 3, 3⟩, 0, 1, 0, 240⟩] ∧
    (startActions [jobA]).all (fun a => !isDispatchNow a) = true ∧
    dtUtcSeconds ⟨⟨2024, 3, 3⟩, 0, 1, 0, 240⟩
      ≤ utcSeconds ⟨2026, 1, 1⟩ 0 0 0 0 ∧
    startSpecActions [jobA] (utcSeconds ⟨2026, 1, 1⟩ 0 0 0 0)
      = [SchedAction.dispatchNow jobA.id] := by
  decide

/-- Claim C8 — amended.  `start()` loads every pending job and arms
exactly one one-shot timer per job at its stored `fire_at` instant —
including when that instant is already past — and performs no immediate
dispatch itself; handling of past-due run dates is left entirely to the
timer library's misfire policy. -/
theorem C8_amended_thm (pending : List Job)
    (hp : ∀ j ∈ pending, (parse_fire_dt j.fire_at).isSome = true)
    (hnd : (pending.map Job.id).Nodup) :
    (startActions pending).length = pending.length ∧
    (∀ a ∈ startActions pending, isDispatchNow a = false) ∧
    (∀ j ∈ pending, ∀ dt, parse_fire_dt j.fire_at = some dt →
      (startActions pending).count (SchedAction.armTimer j.id dt) = 1) := by
  induction pending with
  | nil =>
    refine ⟨rfl, ?_, ?_⟩
    · intro a ha
      exact absurd ha (by simp [startActions])
    · intro j hj
      exact absurd hj (by simp)
  | cons j0 rest ih =>
    have hp0 := hp j0 (List.mem_cons_self j0 rest)
    obtain ⟨dt0, hdt0⟩ := Option.isSome_iff_exists.mp hp0
    have hstart : startActions (j0 :: rest)
        = SchedAction.armTimer j0.id dt0 :: startActions rest := by
      simp [startActions, hdt0]
    simp only [List.map_cons, List.nodup_cons] at hnd
    obtain ⟨hnotin, hndrest⟩ := hnd
    obtain ⟨ihlen, ihdisp, ihcount⟩ :=
      ih (fun j hj => hp j (List.mem_cons_of_mem j0 hj)) hndrest
    refine ⟨?_, ?_, ?_⟩
    · rw [hstart]
      simp [ihlen]
    · intro a ha
      rw [hstart] at ha
      rcases List.mem_cons.mp ha with rfl | ha2
      · rfl
      · exact ihdisp a ha2
    · intro j hj dt hdt
      rcases List.mem_cons.mp hj with rfl | hj2
      · rw [hdt0] at hdt
        obtain rfl : dt0 = dt := by simpa using hdt
        rw [hstart, List.count_cons_self]
        have hz : (startActions rest).count
            (SchedAction.armTimer j.id dt0) = 0 := by
          rw [List.count_eq_zero]
          intro hmem
          obtain ⟨j2, hj2mem, hj2eq⟩ := List.mem_filterMap.mp hmem
          rcases hparse : parse_fire_dt j2.fire_at with _ | dt2
          · rw [hparse] at hj2eq
            simp at hj2eq
          · rw [hparse] at hj2eq
            simp only [Option.map, SchedAction.armTimer.injEq,
              Option.some.injEq] at hj2eq
            obtain ⟨hid, _⟩ := hj2eq
            exact hnotin (List.mem_map.mpr ⟨j2, hj2mem, hid⟩)
        rw [hz]
      · have hid : SchedAction.armTimer j.id dt
            ≠ SchedAction.armTimer j0.id dt0 := by
          intro he
          simp only [SchedAction.armTimer.injEq] at he
          exact hnotin (he.1 ▸ List.mem_map.mpr ⟨j, hj2, rfl⟩)
        rw [hstart, List.count_cons_of_ne hid, ihcount j hj2 dt hdt]

/-- Witness for the amended C8 on a concrete two-job pending list. -/
theorem C8_amended_witness :
    (startActions [jobA, jobC]).length = 2 ∧
    (startActions [jobA, jobC]).count
      (SchedAction.armTimer jobA.id ⟨⟨2024, 3, 3⟩, 0, 1, 0, 240⟩) = 1 := by
  have h := C8_amended_thm [jobA, jobC] (by decide) (by decide)
  exact ⟨h.1, h.2.2 jobA (by simp) ⟨⟨2024, 3, 3⟩, 0, 1, 0, 240⟩ (by decide)⟩

/-- Claim C9 — confirmed.  For two Dispatcher runs sharing a collision
key, under every interleaving: never are both inside the critical
section (mutual exclusion at every instant, since every reachable state
is `runDuel` of some word); and once both runs have finished, the guard's
active-key set is empty (the key was released on every exit path,
whatever the Executors did — including raising), at most one run ended as
a collision, and a run that ended as a collision wrote exactly 'failed'
with the collision message while the other finished normal execution
with its retry loop's terminal write. -/
theorem C9_thm (j1 j2 : Job) (ex1 ex2 : Executor) (w : List Bool)
    (hk : collisionKey j2 = collisionKey j1) :
    (¬ ((runDuel j1 j2 ex1 ex2 w).pc1 = RunPC.critical
        ∧ (runDuel j1 j2 ex1 ex2 w).pc2 = RunPC.critical)) ∧
    (pcTerminal (runDuel j1 j2 ex1 ex2 w).pc1 = true →
     pcTerminal (runDuel j1 j2 ex1 ex2 w).pc2 = true →
      (runDuel j1 j2 ex1 ex2 w).held = [] ∧
      ¬ ((runDuel j1 j2 ex1 ex2 w).pc1 = RunPC.doneCollision
          ∧ (runDuel j1 j2 ex1 ex2 w).pc2 = RunPC.doneCollision) ∧
      ((runDuel j1 j2 ex1 ex2 w).pc1 = RunPC.doneCollision →
        (runDuel j1 j2 ex1 ex2 w).pc2 = RunPC.doneNormal ∧
        (runDuel j1 j2 ex1 ex2 w).writes1
          = [(Status.failed, collisionMsg)] ∧
        (runDuel j1 j2 ex1 ex2 w).writes2 = [finalWrite ex2 j2]) ∧
      ((runDuel j1 j2 ex1 ex2 w).pc2 = RunPC.doneCollision →
        (runDuel j1 j2 ex1 ex2 w).pc1 = RunPC.doneNormal ∧
        (runDuel j1 j2 ex1 ex2 w).writes2
          = [(Status.failed, collisionMsg)] ∧
        (runDuel j1 j2 ex1 ex2 w).writes1 = [finalWrite ex1 j1])) := by
  obtain ⟨hheld, hiff, hmutex, hc1, hc2, hw1, hw2⟩ :=
    runDuel_inv j1 j2 ex1 ex2 hk w
  refine ⟨hmutex, fun ht1 ht2 => ?_⟩
  have hnc1 : (runDuel j1 j2 ex1 ex2 w).pc1 ≠ RunPC.critical := by
    intro hq
    rw [hq] at ht1
    exact absurd ht1 (by simp [pcTerminal])
  have hnc2 : (runDuel j1 j2 ex1 ex2 w).pc2 ≠ RunPC.critical := by
    intro hq
    rw [hq] at ht2
    exact absurd ht2 (by simp [pcTerminal])
  have hempty : (runDuel j1 j2 ex1 ex2 w).held = [] := by
    rcases hheld with h0 | h1
    · exact h0
    · rcases hiff.mpr h1 with hq | hq
      · exact absurd hq hnc1
      · exact absurd hq hnc2
  refine ⟨hempty, ?_, ?_, ?_⟩
  · rintro ⟨hq1, hq2⟩
    rcases hc1 hq1 with hcrit | hdn
    · exact hnc2 hcrit
    · rw [hq2] at hdn
      exact absurd hdn (by simp)
  · intro hq1
    rcases hc1 hq1 with hcrit | hdn
    · exact absurd hcrit hnc2
    · rw [hq1] at hw1
      rw [hdn] at hw2
      exact ⟨hdn, hw1, hw2⟩
  · intro hq2
    rcases hc2 hq2 with hcrit | hdn
    · exact absurd hcrit hnc1
    · rw [hq2] at hw2
      rw [hdn] at hw1
      exact ⟨hdn, hw2, hw1⟩

/-- Witness for C9: a concrete overlapped interleaving — run 1 acquires,
run 2 collides, run 1 finishes — ends with run 2 collision-failed, run 1
normal, and the guard empty. -/
theorem C9_witness :
    (runDuel jobA jobB exOk exAlwaysFail [true, false, true]).held = [] ∧
    (runDuel jobA jobB exOk exAlwaysFail [true, false, true]).pc2
      = RunPC.doneCollision ∧
    (runDuel jobA jobB exOk exAlwaysFail [true, false, true]).pc1
      = RunPC.doneNormal := by
  have h := C9_thm jobA jobB exOk exAlwaysFail [true, false, true] (by decide)
  have hterm := h.2 (by decide) (by decide)
  exact ⟨hterm.1, by decide, (hterm.2.2.2 (by decide)).1⟩

end LRTennis
